import Mathlib

/-!
# Verification of the drip reverse-tunnel core

A shallow embedding, in Lean 4, of the data-plane components of the drip
repository, together with theorems settling the frozen specification claims:

* the HPACK codec (integer coding, string coding, static table, dynamic
  table, encoder, decoder) from internal/shared/compression/hpack;
* the Data sub-header and Data payload codec from internal/shared/protocol;
* the batched frame writer (queues, backlog counters, one-shot per-frame
  counters, error latch) from internal/shared/protocol.

Go machine integers are embedded as Nat with explicit reduction modulo
2^32 (uint32) or 2^16 (uint16) exactly where the Go code performs a
conversion or can overflow.  Go strings and byte slices are embedded as
List Nat of byte values.  Go loops are embedded either structurally or
with an explicit fuel argument equal to a bound the loop itself enforces
(each iteration consumes one list element), keeping every definition
executable by kernel reduction.
-/

namespace Drip

/-- Bytes of an ASCII string literal (Go string literals used by the hpack
tables are all ASCII, where Char.toNat equals the UTF-8 byte). -/
def bstr (s : String) : List Nat :=
  s.data.map Char.toNat

/-- Reduction modulo 2^32: the value of a Go uint32. -/
def u32 (n : Nat) : Nat := n % 4294967296

/-- Go uint32 addition. -/
def u32add (a b : Nat) : Nat := u32 (a + b)

/-- Go uint32 subtraction (wrapping); callers always pass b < 2^32. -/
def u32sub (a b : Nat) : Nat := u32 (a + 4294967296 - b)

namespace Hpack

/-! ## HPACK integer coding

Embeds Encoder.writeInteger (encoder.go lines 140-163) and
Decoder.readInteger (decoder.go lines 182-221). -/

/-- The continuation-byte loop of Encoder.writeInteger: emit value%128 with
the high bit set while value >= 128, then the final byte.  The Go loop runs
`for value >= 128 { value /= 128 }`; a fuel of the starting value bounds the
iteration count (value strictly decreases), keeping the definition
structural. -/
def writeIntegerLoop : Nat → Nat → List Nat
  | 0, value => [value]
  | fuel + 1, value =>
    if 128 ≤ value then (value % 128 ||| 0x80) :: writeIntegerLoop fuel (value / 128)
    else [value]

/-- Encoder.writeInteger without the prefix-bits validity check: if the value
fits below the prefix maximum it is emitted in one byte or-ed into the
prefix, otherwise the prefix maximum is emitted followed by the
continuation bytes of value - maxPrefix. -/
def writeIntegerCore (value : Nat) (prefixBits : Nat) (pfx : Nat) : List Nat :=
  let maxPrefixVal := 2 ^ prefixBits - 1
  if value < maxPrefixVal then [pfx ||| value]
  else (pfx ||| maxPrefixVal) :: writeIntegerLoop (value - maxPrefixVal) (value - maxPrefixVal)

/-- Encoder.writeInteger: rejects prefix widths outside 1..8, then defers to
the core. -/
def writeInteger (value : Nat) (prefixBits : Nat) (pfx : Nat) : Except String (List Nat) :=
  if prefixBits < 1 ∨ 8 < prefixBits then .error "invalid prefix bits"
  else .ok (writeIntegerCore value prefixBits pfx)

/-- The continuation loop of Decoder.readInteger: value += (b and 0x7f) << m
in uint32 arithmetic, m += 7, stop on a clear high bit, error when m has
passed 28 and the high bit is still set.  The additions are performed
modulo 2^32 exactly as Go uint32 arithmetic does. -/
def readIntegerLoop : List Nat → Nat → Nat → Except String (Nat × List Nat)
  | [], _, _ => .error "unexpected end of input"
  | b :: rest, m, value =>
    let value2 := u32 (value + (b &&& 0x7f) * 2 ^ m)
    let m2 := m + 7
    if b &&& 0x80 = 0 then .ok (value2, rest)
    else if 28 < m2 then .error "integer overflow"
    else readIntegerLoop rest m2 value2

/-- Decoder.readInteger: read the prefix byte, mask out the low prefixBits
bits; a value below the prefix maximum is final, otherwise continuation
bytes follow. -/
def readInteger (prefixBits : Nat) (bs : List Nat) : Except String (Nat × List Nat) :=
  if prefixBits < 1 ∨ 8 < prefixBits then .error "invalid prefix bits"
  else
    match bs with
    | [] => .error "unexpected end of input"
    | b :: rest =>
      let maxPrefixVal := 2 ^ prefixBits - 1
      let value := b &&& maxPrefixVal
      if value < maxPrefixVal then .ok (value, rest)
      else readIntegerLoop rest 0 value

/-! ## HPACK string coding

Embeds Encoder.writeString (encoder.go lines 166-184) and
Decoder.readString (decoder.go lines 224-264). -/

/-- Encoder.writeString: a Huffman request is an error (not implemented);
otherwise the length with a 7-bit prefix and zero flag bit, then the raw
bytes. -/
def writeString (s : List Nat) (huffmanEncode : Bool) : Except String (List Nat) :=
  if huffmanEncode then .error "huffman encoding not implemented"
  else
    match writeInteger s.length 7 0x00 with
    | .error e => .error e
    | .ok lenBytes => .ok (lenBytes ++ s)

/-- Decoder.readString: peek the Huffman flag bit of the first byte, read the
7-bit-prefixed length, return the empty string at length zero, otherwise
check the buffer, take the bytes, and only then reject a set Huffman flag. -/
def readString (bs : List Nat) : Except String (List Nat × List Nat) :=
  match bs with
  | [] => .error "unexpected end of input"
  | b :: _ =>
    let huffmanEncoded := b &&& 0x80 ≠ 0
    match readInteger 7 bs with
    | .error e => .error e
    | .ok (len, rest) =>
      if len = 0 then .ok ([], rest)
      else if rest.length < len then .error "string length exceeds buffer size"
      else
        let data := rest.take len
        if data.length ≠ len then .error "short read"
        else if huffmanEncoded then .error "huffman decoding not implemented"
        else .ok (data, rest.drop len)

/-! ## Header fields and the static table

Embeds HeaderField (dynamic_table.go lines 17-26) and the static table
(RFC 7541 Appendix A subset, static table source file lines 29-150). -/

/-- A header name-value pair; name and value are Go strings, i.e. byte
sequences. -/
structure HeaderField where
  name : List Nat
  value : List Nat
deriving DecidableEq, Repr

/-- HeaderField.Size: uint32(len(name) + len(value) + 32). -/
def HeaderField.size (f : HeaderField) : Nat :=
  u32 (f.name.length + f.value.length + 32)

/-- The 61 static-table entries, in table order. -/
def staticEntries : List HeaderField :=
  [⟨bstr ":authority", bstr ""⟩,
   ⟨bstr ":method", bstr "GET"⟩,
   ⟨bstr ":method", bstr "POST"⟩,
   ⟨bstr ":path", bstr "/"⟩,
   ⟨bstr ":path", bstr "/index.html"⟩,
   ⟨bstr ":scheme", bstr "http"⟩,
   ⟨bstr ":scheme", bstr "https"⟩,
   ⟨bstr ":status", bstr "200"⟩,
   ⟨bstr ":status", bstr "204"⟩,
   ⟨bstr ":status", bstr "206"⟩,
   ⟨bstr ":status", bstr "304"⟩,
   ⟨bstr ":status", bstr "400"⟩,
   ⟨bstr ":status", bstr "404"⟩,
   ⟨bstr ":status", bstr "500"⟩,
   ⟨bstr "accept-charset", bstr ""⟩,
   ⟨bstr "accept-encoding", bstr "gzip, deflate"⟩,
   ⟨bstr "accept-language", bstr ""⟩,
   ⟨bstr "accept-ranges", bstr ""⟩,
   ⟨bstr "accept", bstr ""⟩,
   ⟨bstr "access-control-allow-origin", bstr ""⟩,
   ⟨bstr "age", bstr ""⟩,
   ⟨bstr "allow", bstr ""⟩,
   ⟨bstr "authorization", bstr ""⟩,
   ⟨bstr "cache-control", bstr ""⟩,
   ⟨bstr "content-disposition", bstr ""⟩,
   ⟨bstr "content-encoding", bstr ""⟩,
   ⟨bstr "content-language", bstr ""⟩,
   ⟨bstr "content-length", bstr ""⟩,
   ⟨bstr "content-location", bstr ""⟩,
   ⟨bstr "content-range", bstr ""⟩,
   ⟨bstr "content-type", bstr ""⟩,
   ⟨bstr "cookie", bstr ""⟩,
   ⟨bstr "date", bstr ""⟩,
   ⟨bstr "etag", bstr ""⟩,
   ⟨bstr "expect", bstr ""⟩,
   ⟨bstr "expires", bstr ""⟩,
   ⟨bstr "from", bstr ""⟩,
   ⟨bstr "host", bstr ""⟩,
   ⟨bstr "if-match", bstr ""⟩,
   ⟨bstr "if-modified-since", bstr ""⟩,
   ⟨bstr "if-none-match", bstr ""⟩,
   ⟨bstr "if-range", bstr ""⟩,
   ⟨bstr "if-unmodified-since", bstr ""⟩,
   ⟨bstr "last-modified", bstr ""⟩,
   ⟨bstr "link", bstr ""⟩,
   ⟨bstr "location", bstr ""⟩,
   ⟨bstr "max-forwards", bstr ""⟩,
   ⟨bstr "proxy-authenticate", bstr ""⟩,
   ⟨bstr "proxy-authorization", bstr ""⟩,
   ⟨bstr "range", bstr ""⟩,
   ⟨bstr "referer", bstr ""⟩,
   ⟨bstr "refresh", bstr ""⟩,
   ⟨bstr "retry-after", bstr ""⟩,
   ⟨bstr "server", bstr ""⟩,
   ⟨bstr "set-cookie", bstr ""⟩,
   ⟨bstr "strict-transport-security", bstr ""⟩,
   ⟨bstr "transfer-encoding", bstr ""⟩,
   ⟨bstr "user-agent", bstr ""⟩,
   ⟨bstr "vary", bstr ""⟩,
   ⟨bstr "via", bstr ""⟩,
   ⟨bstr "www-authenticate", bstr ""⟩]

/-- StaticTable.Size: the number of entries (61). -/
def staticTableSize : Nat := staticEntries.length

/-- StaticTable.Get: 0-based lookup, out of range is an error. -/
def staticGet (index : Nat) : Except String (List Nat × List Nat) :=
  match staticEntries[index]? with
  | some f => .ok (f.name, f.value)
  | none => .error "index out of range in static table"

/-- StaticTable.FindExact: the name-map scan returns the first (lowest)
index whose name and value both match. -/
def staticFindExact (name value : List Nat) : Option Nat :=
  staticEntries.findIdx? (fun f => f.name = name ∧ f.value = value)

/-- StaticTable.FindName: the first (lowest) index whose name matches. -/
def staticFindName (name : List Nat) : Option Nat :=
  staticEntries.findIdx? (fun f => f.name = name)

/-! ## Dynamic table

Embeds DynamicTable (dynamic_table.go lines 10-124).  The eviction while
loops take an explicit fuel equal to the current entry count: each
iteration removes one entry and the loop guard requires a nonempty table,
so that fuel is exact. -/

/-- The dynamic table: FIFO entries (index 0 most recent), current size in
bytes, maximum size in bytes, all uint32 in Go. -/
structure DynamicTable where
  entries : List HeaderField
  size : Nat
  maxSize : Nat
deriving DecidableEq, Repr

/-- NewDynamicTable. -/
def newDynamicTable (maxSize : Nat) : DynamicTable :=
  { entries := [], size := 0, maxSize := u32 maxSize }

/-- DynamicTable.evictOldest: remove the last entry and subtract its size
(uint32 subtraction); no-op on an empty table. -/
def DynamicTable.evictOldest (dt : DynamicTable) : DynamicTable :=
  match dt.entries.getLast? with
  | none => dt
  | some evicted =>
    { dt with entries := dt.entries.dropLast, size := u32sub dt.size evicted.size }

/-- DynamicTable.evictAll: drop every entry and zero the size. -/
def DynamicTable.evictAll (dt : DynamicTable) : DynamicTable :=
  { dt with entries := [], size := 0 }

/-- The eviction loop of DynamicTable.Add:
while size + fieldSize > maxSize (uint32 addition) and entries remain,
evict the oldest. -/
def addEvictLoop : Nat → DynamicTable → Nat → DynamicTable
  | 0, dt, _ => dt
  | fuel + 1, dt, fieldSize =>
    if dt.maxSize < u32add dt.size fieldSize ∧ dt.entries ≠ [] then
      addEvictLoop fuel dt.evictOldest fieldSize
    else dt

/-- DynamicTable.Add: an over-size field evicts everything and is not
inserted; otherwise evict until the field fits, prepend it, and add its
size. -/
def DynamicTable.add (dt : DynamicTable) (name value : List Nat) : DynamicTable :=
  let field : HeaderField := ⟨name, value⟩
  let fieldSize := field.size
  if dt.maxSize < fieldSize then dt.evictAll
  else
    let dt2 := addEvictLoop dt.entries.length dt fieldSize
    { dt2 with entries := field :: dt2.entries, size := u32add dt2.size fieldSize }

/-- DynamicTable.Get: 0-based lookup, index 0 most recent, out of range is
an error. -/
def DynamicTable.get (dt : DynamicTable) (index : Nat) : Except String (List Nat × List Nat) :=
  match dt.entries[index]? with
  | some f => .ok (f.name, f.value)
  | none => .error "index out of range in dynamic table"

/-- DynamicTable.FindExact: first index matching name and value. -/
def DynamicTable.findExact (dt : DynamicTable) (name value : List Nat) : Option Nat :=
  dt.entries.findIdx? (fun f => f.name = name ∧ f.value = value)

/-- DynamicTable.FindName: first index matching the name. -/
def DynamicTable.findName (dt : DynamicTable) (name : List Nat) : Option Nat :=
  dt.entries.findIdx? (fun f => f.name = name)

/-- The eviction loop of DynamicTable.SetMaxSize:
while size > maxSize and entries remain, evict the oldest. -/
def setMaxSizeLoop : Nat → DynamicTable → DynamicTable
  | 0, dt => dt
  | fuel + 1, dt =>
    if dt.maxSize < dt.size ∧ dt.entries ≠ [] then setMaxSizeLoop fuel dt.evictOldest
    else dt

/-- DynamicTable.SetMaxSize: store the new maximum, then evict down to it. -/
def DynamicTable.setMaxSize (dt : DynamicTable) (maxSize : Nat) : DynamicTable :=
  let dt2 := { dt with maxSize := u32 maxSize }
  setMaxSizeLoop dt2.entries.length dt2

/-! ## Encoder

Embeds Encoder.encodeHeaderField and helpers (encoder.go lines 70-137) and
Encoder.Encode (lines 48-67).  The encoder state that the claims touch is
its dynamic table; the static table is the process-wide singleton above.
Go iterates the header map in unspecified order; the embedding takes the
headers as an explicit list of name-value pairs in iteration order. -/

/-- ASCII lower-casing of a byte string; strings.ToLower coincides with
this on the ASCII header names that occur here. -/
def toLowerBytes (s : List Nat) : List Nat :=
  s.map (fun b => if 65 ≤ b ∧ b ≤ 90 then b + 32 else b)

/-- Encoder.writeIndexedHeader: the index with a 7-bit prefix under flag
0x80. -/
def writeIndexedHeader (index : Nat) : Except String (List Nat) :=
  writeInteger index 7 0x80

/-- Encoder.writeLiteralWithIndexing with hasIndex = true (the only way the
encoder calls it with a nonzero name index): the name index with a 6-bit
prefix under flag 0x40, then the literal value. -/
def writeLiteralWithIndexing (nameIndex : Nat) (value : List Nat) : Except String (List Nat) :=
  match writeInteger nameIndex 6 0x40 with
  | .error e => .error e
  | .ok idxBytes =>
    match writeString value false with
    | .error e => .error e
    | .ok valueBytes => .ok (idxBytes ++ valueBytes)

/-- Encoder.encodeHeaderField: lower-case the name; search static exact,
static name, dynamic exact, dynamic name, in that order; fall back to a
literal with incremental indexing carrying a literal name, which is the
only branch that inserts into the encoder's dynamic table.  Returns the
updated dynamic table and the bytes appended to the buffer. -/
def encodeHeaderField (dt : DynamicTable) (name value : List Nat) :
    Except String (DynamicTable × List Nat) :=
  let nameLower := toLowerBytes name
  match staticFindExact nameLower value with
  | some index =>
    match writeIndexedHeader (index + 1) with
    | .error e => .error e
    | .ok bs => .ok (dt, bs)
  | none =>
    match staticFindName nameLower with
    | some index =>
      match writeLiteralWithIndexing (index + 1) value with
      | .error e => .error e
      | .ok bs => .ok (dt, bs)
    | none =>
      match dt.findExact nameLower value with
      | some index =>
        match writeIndexedHeader (staticTableSize + index + 1) with
        | .error e => .error e
        | .ok bs => .ok (dt, bs)
      | none =>
        match dt.findName nameLower with
        | some index =>
          match writeLiteralWithIndexing (staticTableSize + index + 1) value with
          | .error e => .error e
          | .ok bs => .ok (dt, bs)
        | none =>
          match writeString nameLower false with
          | .error e => .error e
          | .ok nameBytes =>
            match writeString value false with
            | .error e => .error e
            | .ok valueBytes =>
              .ok (dt.add nameLower value, 0x40 :: (nameBytes ++ valueBytes))

/-- Encoder.Encode over a list of name-value pairs (the flattened header
map in iteration order): concatenate the per-field encodings, threading
the dynamic table. -/
def encode (dt : DynamicTable) : List (List Nat × List Nat) →
    Except String (DynamicTable × List Nat)
  | [] => .ok (dt, [])
  | (name, value) :: rest =>
    match encodeHeaderField dt name value with
    | .error e => .error e
    | .ok (dt2, bs) =>
      match encode dt2 rest with
      | .error e => .error e
      | .ok (dt3, bs2) => .ok (dt3, bs ++ bs2)

/-! ## Decoder

Embeds Decoder.decodeIndexedHeader, decodeLiteralWithIndexing,
decodeLiteralWithoutIndexing (decoder.go lines 80-179) and the Decode
loop (lines 34-77).  The Decode loop consumes at least one byte per
iteration, so the input length is exact fuel.  The Go decoder collects
pairs into an http.Header map (canonicalizing names); the embedding
returns the raw decoded pairs in decode order. -/

/-- Decoder.decodeIndexedHeader: a 7-bit index; 0 is invalid; 1..61 static;
above that dynamic with dynamicIndex = index - staticSize - 1. -/
def decodeIndexedHeader (dt : DynamicTable) (bs : List Nat) :
    Except String ((List Nat × List Nat) × List Nat) :=
  match readInteger 7 bs with
  | .error e => .error e
  | .ok (index, rest) =>
    if index = 0 then .error "invalid index: 0"
    else if index ≤ staticTableSize then
      match staticGet (index - 1) with
      | .error e => .error e
      | .ok nv => .ok (nv, rest)
    else
      match dt.get (index - staticTableSize - 1) with
      | .error e => .error e
      | .ok nv => .ok (nv, rest)

/-- Name resolution shared by the two literal forms: index 0 means a
literal name follows; otherwise the name comes from the static or dynamic
table. -/
def resolveLiteralName (dt : DynamicTable) (nameIndex : Nat) (rest : List Nat) :
    Except String (List Nat × List Nat) :=
  if nameIndex = 0 then readString rest
  else if nameIndex ≤ staticTableSize then
    match staticGet (nameIndex - 1) with
    | .error e => .error e
    | .ok (name, _) => .ok (name, rest)
  else
    match dt.get (nameIndex - staticTableSize - 1) with
    | .error e => .error e
    | .ok (name, _) => .ok (name, rest)

/-- Decoder.decodeLiteralWithIndexing: 6-bit name index, literal value,
and insertion of the decoded pair into the decoder's dynamic table. -/
def decodeLiteralWithIndexing (dt : DynamicTable) (bs : List Nat) :
    Except String ((List Nat × List Nat) × DynamicTable × List Nat) :=
  match readInteger 6 bs with
  | .error e => .error e
  | .ok (nameIndex, rest) =>
    match resolveLiteralName dt nameIndex rest with
    | .error e => .error e
    | .ok (name, rest2) =>
      match readString rest2 with
      | .error e => .error e
      | .ok (value, rest3) => .ok ((name, value), dt.add name value, rest3)

/-- Decoder.decodeLiteralWithoutIndexing: 4-bit name index, literal value,
no table insertion. -/
def decodeLiteralWithoutIndexing (dt : DynamicTable) (bs : List Nat) :
    Except String ((List Nat × List Nat) × List Nat) :=
  match readInteger 4 bs with
  | .error e => .error e
  | .ok (nameIndex, rest) =>
    match resolveLiteralName dt nameIndex rest with
    | .error e => .error e
    | .ok (name, rest2) =>
      match readString rest2 with
      | .error e => .error e
      | .ok (value, rest3) => .ok ((name, value), rest3)

/-- The Decode loop: dispatch on the top bits of the next byte until the
buffer is exhausted.  Fuel bounds the iteration count; the caller passes
the input length, which suffices because every representation consumes at
least its first byte. -/
def decodeLoop : Nat → DynamicTable → List Nat → List (List Nat × List Nat) →
    Except String (List (List Nat × List Nat) × DynamicTable)
  | _, dt, [], acc => .ok (acc.reverse, dt)
  | 0, _, _ :: _, _ => .error "decode loop fuel exhausted"
  | fuel + 1, dt, b :: rest, acc =>
    if b &&& 0x80 ≠ 0 then
      match decodeIndexedHeader dt (b :: rest) with
      | .error e => .error e
      | .ok (nv, rest2) => decodeLoop fuel dt rest2 (nv :: acc)
    else if b &&& 0x40 ≠ 0 then
      match decodeLiteralWithIndexing dt (b :: rest) with
      | .error e => .error e
      | .ok (nv, dt2, rest2) => decodeLoop fuel dt2 rest2 (nv :: acc)
    else
      match decodeLiteralWithoutIndexing dt (b :: rest) with
      | .error e => .error e
      | .ok (nv, rest2) => decodeLoop fuel dt rest2 (nv :: acc)

/-- Decoder.Decode: run the loop over the whole input. -/
def decode (dt : DynamicTable) (bs : List Nat) :
    Except String (List (List Nat × List Nat) × DynamicTable) :=
  decodeLoop bs.length dt bs []

/-- One encode-decode step of a paired encoder and decoder: encode a header
set with the encoder table, decode the bytes with the decoder table. -/
def roundtripStep (edt ddt : DynamicTable) (headers : List (List Nat × List Nat)) :
    Except String (DynamicTable × DynamicTable × List (List Nat × List Nat)) :=
  match encode edt headers with
  | .error e => .error e
  | .ok (edt2, bs) =>
    match decode ddt bs with
    | .error e => .error e
    | .ok (decoded, ddt2) => .ok (edt2, ddt2, decoded)

/-- A whole sequence of header sets through a paired encoder and decoder
that start with empty dynamic tables of the same maximum size: the list of
decoded header sets. -/
def roundtripSeq (edt ddt : DynamicTable) :
    List (List (List Nat × List Nat)) → Except String (List (List (List Nat × List Nat)))
  | [] => .ok []
  | headers :: rest =>
    match roundtripStep edt ddt headers with
    | .error e => .error e
    | .ok (edt2, ddt2, decoded) =>
      match roundtripSeq edt2 ddt2 rest with
      | .error e => .error e
      | .ok decodedRest => .ok (decoded :: decodedRest)

/-! ### Dynamic-table operation language

The operations a dynamic table is subjected to (the queries Get, FindExact
and FindName leave the table unchanged and are included as identity
transitions), used to state the size invariant over every reachable
table. -/

/-- One dynamic-table operation. -/
inductive DTOp where
  | add (name value : List Nat)
  | setMaxSize (maxSize : Nat)
  | get (index : Nat)
  | findExact (name value : List Nat)
  | findName (name : List Nat)
deriving DecidableEq, Repr

/-- Apply one operation to a table (queries do not mutate). -/
def applyDTOp (dt : DynamicTable) : DTOp → DynamicTable
  | .add name value => dt.add name value
  | .setMaxSize m => dt.setMaxSize m
  | .get _ => dt
  | .findExact _ _ => dt
  | .findName _ => dt

/-- Run a sequence of dynamic-table operations. -/
def runDTOps : List DTOp → DynamicTable → DynamicTable
  | [], dt => dt
  | op :: rest, dt => runDTOps rest (applyDTOp dt op)

/-- The sum of the sizes of a list of header fields. -/
def sizeSum (entries : List HeaderField) : Nat :=
  (entries.map HeaderField.size).sum

end Hpack

namespace Proto

/-! ## Data sub-header and Data payload codec

Embeds DataHeader.MarshalBinary / UnmarshalBinary / Size and
encodeDataPayload / DecodeDataPayload.  Layout: one flags byte
(type in bits 0-2, isLast in bit 3, reserved bits 4-7), two big-endian
uint16 lengths, then streamID, requestID, payload. -/

/-- DataHeader.  Type is a Go uint8 (DataType); StreamID and RequestID are
Go strings, i.e. byte sequences. -/
structure DataHeader where
  type : Nat
  isLast : Bool
  streamID : List Nat
  requestID : List Nat
deriving DecidableEq, Repr

/-- The zero value of DataHeader (var header DataHeader). -/
def emptyDataHeader : DataHeader :=
  { type := 0, isLast := false, streamID := [], requestID := [] }

/-- binaryHeaderMinSize: 1 byte flags + 2 bytes streamID len + 2 bytes
requestID len. -/
def binaryHeaderMinSize : Nat := 5

/-- The flags byte: type in the low three bits, isLast as bit 3. -/
def dataHeaderFlags (h : DataHeader) : Nat :=
  let flags := h.type &&& 0x07
  if h.isLast then flags ||| 0x08 else flags

/-- The five fixed bytes: flags, then the two lengths as big-endian uint16
(the Go uint16 conversion truncates lengths above 65535). -/
def dataHeaderFixedBytes (h : DataHeader) : List Nat :=
  let streamIDLen := h.streamID.length % 65536
  let requestIDLen := h.requestID.length % 65536
  [dataHeaderFlags h,
   (streamIDLen >>> 8) % 256, streamIDLen % 256,
   (requestIDLen >>> 8) % 256, requestIDLen % 256]

/-- DataHeader.MarshalBinary: fixed bytes, then streamID, then requestID. -/
def marshalBinary (h : DataHeader) : List Nat :=
  dataHeaderFixedBytes h ++ (h.streamID ++ h.requestID)

/-- DataHeader.UnmarshalBinary.  The receiver is mutated in source order:
Type and IsLast are overwritten from the flags byte before the length
check, so on a length mismatch the already mutated receiver is returned
with the error.  binary.BigEndian.Uint16 on bytes b0 b1 is b0 * 256 + b1. -/
def unmarshalBinary (h : DataHeader) (data : List Nat) : DataHeader × Option String :=
  match data with
  | flags :: s1 :: s0 :: r1 :: r0 :: rest =>
    let h1 := { h with type := flags &&& 0x07, isLast := flags &&& 0x08 ≠ 0 }
    let streamIDLen := s1 * 256 + s0
    let requestIDLen := r1 * 256 + r0
    if data.length < binaryHeaderMinSize + streamIDLen + requestIDLen then
      (h1, some "invalid binary header: length mismatch")
    else
      ({ h1 with streamID := rest.take streamIDLen,
                 requestID := (rest.drop streamIDLen).take requestIDLen }, none)
  | _ => (h, some "invalid binary header: too short")

/-- DataHeader.Size: the encoded size of the sub-header. -/
def DataHeader.size (h : DataHeader) : Nat :=
  binaryHeaderMinSize + h.streamID.length + h.requestID.length

/-- encodeDataPayload: the sub-header bytes followed by the data (the Go
function builds the same bytes in place and its error is always nil). -/
def encodeDataPayload (header : DataHeader) (data : List Nat) : List Nat :=
  marshalBinary header ++ data

/-- DecodeDataPayload: length precheck, UnmarshalBinary on a zero header,
header-size recheck, then the data is the remainder of the payload. -/
def decodeDataPayload (payload : List Nat) : Except String (DataHeader × List Nat) :=
  if payload.length < binaryHeaderMinSize then .error "invalid payload: too short"
  else
    match unmarshalBinary emptyDataHeader payload with
    | (_, some e) => .error e
    | (header, none) =>
      if payload.length < header.size then .error "invalid payload: data missing"
      else .ok (header, payload.drop header.size)

end Proto

namespace FW

/-! ## Frame writer

Embeds the FrameWriter of the protocol package: enqueue paths
(WriteFrame / WriteFrameWithCancel / WriteControl), the write loop
(writeLoop, flushBatchLocked, flushFrameLocked), backlog counters
(queuedFrames / queuedBytes, int64), the per-frame one-shot counter
(frame.queuedBytes, unmarkQueued) and Close.

The Frame struct, the frame serializer WriteFrame(conn, frame), the
constant FrameHeaderSize and Frame.Release are referenced by the frame
writer but their definitions are not part of the sources; they are
modelled from the spec where needed (see frameHeaderSize).  A frame is
identified by its index in a store of per-frame one-shot counters; its
only relevant datum is its payload length.  The underlying byte writer is
modelled by a schedule saying which successive conn writes fail, and by
the list of frames handed to it.  The embedding is sequential: enqueue
calls, single write-loop iterations and Close are explicit operations, and
a blocking enqueue on a full queue resolves through its cancel/timeout arm
(there is no concurrent consumer inside one operation). -/

/-- Modelled from the spec: FrameHeaderSize, the size of the fixed frame
header, is defined in a source file that is not part of the sources
(only the frame writer that adds it to len(frame.Payload) is).  Spec 4.1
fixes the header to kind u8, flags u8, length u32: six bytes.  Only
positivity matters to the claims. -/
def frameHeaderSize : Nat := 6

/-- Configuration and environment of one frame-writer run. -/
structure WParams where
  queueCap : Nat
  ctrlCap : Nat
  maxBatch : Nat
  adaptiveFlush : Bool
  lowConcurrencyThreshold : Nat
  connFailAt : List Bool

/-- The writer state: the per-frame one-shot counters (frame id = index),
the two queues and the in-progress batch (lists of frame ids), the closed
flag, the done-channel flag, the error latch, the two backlog counters
(int64 in Go), and the conn write trace. -/
structure WState where
  markers : List Int
  dataQ : List Nat
  ctrlQ : List Nat
  batch : List Nat
  closed : Bool
  doneClosed : Bool
  writeErr : Option String
  queuedFrames : Int
  queuedBytes : Int
  emitted : List Nat
  connCalls : Nat

/-- The initial state of a freshly constructed writer. -/
def initW : WState :=
  { markers := [], dataQ := [], ctrlQ := [], batch := [], closed := false,
    doneClosed := false, writeErr := none, queuedFrames := 0, queuedBytes := 0,
    emitted := [], connCalls := 0 }

/-- len(frame.Payload) + FrameHeaderSize, the size stamped into the
frame's one-shot counter and added to queuedBytes. -/
def frameSize (payloadLen : Nat) : Int :=
  ((payloadLen + frameHeaderSize : Nat) : Int)

/-- FrameWriter.unmarkQueued: swap the frame's one-shot counter to zero;
only a positive previous value decrements the backlog counters, so each
frame is decremented at most once. -/
def unmarkQueued (s : WState) (fid : Nat) : WState :=
  let size := s.markers.getD fid 0
  let s2 := { s with markers := s.markers.set fid 0 }
  if size ≤ 0 then s2
  else { s2 with queuedFrames := s2.queuedFrames - 1, queuedBytes := s2.queuedBytes - size }

/-- FrameWriter.flushFrameLocked: hand the frame to WriteFrame(conn, frame)
(recorded in emitted); a failing write runs the errOnce body, latching the
error and marking the writer closed, exactly once; then unmark and release
the frame.  Note the frame is handed to conn unconditionally, whether or
not an error is already latched. -/
def flushFrame (p : WParams) (s : WState) (fid : Nat) : WState :=
  let fails := p.connFailAt.getD s.connCalls false
  let s2 := { s with emitted := s.emitted ++ [fid], connCalls := s.connCalls + 1 }
  let s3 :=
    if fails then
      match s2.writeErr with
      | some _ => s2
      | none => { s2 with writeErr := some "write error", closed := true }
    else s2
  unmarkQueued s3 fid

/-- FrameWriter.flushBatchLocked: flush every batched frame in order, then
clear the batch. -/
def flushBatch (p : WParams) (s : WState) : WState :=
  let ids := s.batch
  let s2 := ids.foldl (flushFrame p) s
  { s2 with batch := [] }

/-- FrameWriter.WriteFrameWithCancel (WriteFrame passes cancel = false):
fail fast with the latched error when closed; otherwise stamp the one-shot
counter, increment the backlog counters and try a non-blocking send; on a
full queue the blocking wait resolves through the cancel or timeout arm,
which decrements the counters, clears the one-shot counter and fails.
Returns the new state and the call's result. -/
def writeFrameOp (p : WParams) (s : WState) (payloadLen : Nat) (cancel : Bool) :
    WState × Except String Unit :=
  if s.closed then
    (s, .error (match s.writeErr with | some e => e | none => "writer closed"))
  else
    let fid := s.markers.length
    let size := frameSize payloadLen
    let s1 := { s with markers := s.markers ++ [size],
                       queuedFrames := s.queuedFrames + 1,
                       queuedBytes := s.queuedBytes + size }
    if s1.dataQ.length < p.queueCap then
      ({ s1 with dataQ := s1.dataQ ++ [fid] }, .ok ())
    else
      let s2 := { s1 with markers := s1.markers.set fid 0,
                          queuedFrames := s1.queuedFrames - 1,
                          queuedBytes := s1.queuedBytes - size }
      (s2, .error (if cancel then "write cancelled" else "write queue full timeout"))

/-- FrameWriter.WriteControl: the control-queue counterpart of the enqueue
path, with the short control timeout on a full queue. -/
def writeControlOp (p : WParams) (s : WState) (payloadLen : Nat) :
    WState × Except String Unit :=
  if s.closed then
    (s, .error (match s.writeErr with | some e => e | none => "writer closed"))
  else
    let fid := s.markers.length
    let size := frameSize payloadLen
    let s1 := { s with markers := s.markers ++ [size],
                       queuedFrames := s.queuedFrames + 1,
                       queuedBytes := s.queuedBytes + size }
    if s1.ctrlQ.length < p.ctrlCap then
      ({ s1 with ctrlQ := s1.ctrlQ ++ [fid] }, .ok ())
    else
      let s2 := { s1 with markers := s1.markers.set fid 0,
                          queuedFrames := s1.queuedFrames - 1,
                          queuedBytes := s1.queuedBytes - size }
      (s2, .error "control queue full timeout")

/-- One iteration of FrameWriter.writeLoop (heartbeat arms elided: the
claims do not involve heartbeats): drain the control queue first; else
take one data frame into the batch and flush when the batch is full or the
adaptive-flush condition holds; else the batch ticker flushes a nonempty
batch. -/
def loopStep (p : WParams) (s : WState) : WState :=
  match s.ctrlQ with
  | fid :: rest => flushFrame p { s with ctrlQ := rest } fid
  | [] =>
    match s.dataQ with
    | fid :: rest =>
      let s2 := { s with dataQ := rest, batch := s.batch ++ [fid] }
      if p.maxBatch ≤ s2.batch.length ∨
          (p.adaptiveFlush ∧ s2.dataQ.length ≤ p.lowConcurrencyThreshold) then
        flushBatch p s2
      else s2
    | [] =>
      if s.batch ≠ [] then flushBatch p s else s

/-- FrameWriter.Close: a no-op when already closed (including closed by the
error latch); otherwise mark closed, close and drain both queues,
unmarking and releasing every frame, then close done. -/
def closeOp (s : WState) : WState :=
  if s.closed then s
  else
    let ids := s.dataQ ++ s.ctrlQ
    let s1 := { s with closed := true, dataQ := [], ctrlQ := [] }
    let s2 := ids.foldl unmarkQueued s1
    { s2 with doneClosed := true }

/-- The operations a client and the write loop can perform. -/
inductive WOp where
  | writeFrame (payloadLen : Nat) (cancel : Bool)
  | writeControl (payloadLen : Nat)
  | loop
  | close
deriving DecidableEq, Repr

/-- Apply one operation (dropping call results). -/
def applyOp (p : WParams) (s : WState) : WOp → WState
  | .writeFrame n c => (writeFrameOp p s n c).1
  | .writeControl n => (writeControlOp p s n).1
  | .loop => loopStep p s
  | .close => closeOp s

/-- Run a sequence of operations. -/
def runOps (p : WParams) : List WOp → WState → WState
  | [], s => s
  | op :: rest, s => runOps p rest (applyOp p s op)

/-- Iterated write-loop steps. -/
def drainSteps (p : WParams) : Nat → WState → WState
  | 0, s => s
  | n + 1, s => drainSteps p n (loopStep p s)

/-- Shut the writer down and let the write loop quiesce: Close, then enough
loop iterations to drain anything still queued (Close already drained the
queues unless the error latch made it a no-op), then the final batch flush
the loop performs on its way out. -/
def quiesce (p : WParams) (s : WState) : WState :=
  let s1 := closeOp s
  let s2 := drainSteps p (s1.dataQ.length + s1.ctrlQ.length) s1
  flushBatch p s2

/-! ### Frame-writer invariant vocabulary -/

/-- The number of outstanding (nonzero) one-shot counters, as an Int to
match the int64 backlog counters. -/
def markerCountI (l : List Int) : Int :=
  (l.map (fun m => if m ≠ 0 then (1 : Int) else 0)).sum

/-- The backlog counters agree with the outstanding one-shot counters:
queuedBytes is their sum and queuedFrames their count. -/
def countersInv (s : WState) : Prop :=
  s.queuedBytes = s.markers.sum ∧ s.queuedFrames = markerCountI s.markers

/-- Every frame with an outstanding one-shot counter sits in the data
queue, the control queue or the batch. -/
def ownedInv (s : WState) : Prop :=
  ∀ fid, s.markers.getD fid 0 ≠ 0 → fid ∈ s.dataQ ∨ fid ∈ s.ctrlQ ∨ fid ∈ s.batch

/-- One-shot counters are never negative (they hold zero or a frame
size). -/
def nonnegInv (s : WState) : Prop :=
  ∀ i, 0 ≤ s.markers.getD i 0

/-- The full frame-writer invariant. -/
def WInv (s : WState) : Prop :=
  countersInv s ∧ ownedInv s ∧ nonnegInv s

end FW

/-! # Theorems

Helper lemmas first within each namespace, then the claim theorems (one per
claim, named after the claim id), their witnesses and counterexamples. -/

namespace Hpack

theorem byteFacts : ∀ r : Nat, r < 128 →
    (r ||| 128 = r + 128) ∧ ((r + 128) &&& 127 = r) ∧ ((r + 128) &&& 128 = 128) ∧
    (r &&& 127 = r) ∧ (r &&& 128 = 0) := by decide

theorem readLoop_writeLoop (fuel : Nat) :
    ∀ v acc m tail, v ≤ fuel →
      acc + v * 2 ^ m < 4294967296 →
      m % 7 = 0 → m ≤ 28 →
      readIntegerLoop (writeIntegerLoop fuel v ++ tail) m acc = .ok (acc + v * 2 ^ m, tail) := by
  induction fuel with
  | zero =>
    intro v acc m tail hv hbound _ _
    have hv0 : v = 0 := Nat.le_zero.mp hv
    subst hv0
    have hacc : acc < 4294967296 := by omega
    simp [writeIntegerLoop, readIntegerLoop, u32, Nat.mod_eq_of_lt hacc]
  | succ fuel ih =>
    intro v acc m tail hv hbound hm7 hm28
    by_cases hbig : 128 ≤ v
    · have hr : v % 128 < 128 := Nat.mod_lt _ (by omega)
      have hpow : (2 : Nat) ^ (m + 7) ≤ v * 2 ^ m := by
        calc (2 : Nat) ^ (m + 7) = 2 ^ 7 * 2 ^ m := by rw [Nat.pow_add, Nat.mul_comm]
        _ ≤ v * 2 ^ m := Nat.mul_le_mul_right _ (by omega)
      have hm7lt : m + 7 < 32 := by
        by_contra hcon
        have h1 : (2 : Nat) ^ 32 ≤ 2 ^ (m + 7) := Nat.pow_le_pow_right (by omega) (by omega)
        have h2 : (2 : Nat) ^ 32 ≤ v * 2 ^ m := le_trans h1 hpow
        norm_num at h2
        omega
      have hmle : m + 7 ≤ 28 := by omega
      have hval2 : acc + v % 128 * 2 ^ m < 4294967296 := by
        have : v % 128 * 2 ^ m ≤ v * 2 ^ m := Nat.mul_le_mul_right _ (Nat.mod_le _ _)
        omega
      have hdiv : v / 128 ≤ fuel := by
        have : v / 128 < v := Nat.div_lt_self (by omega) (by omega)
        omega
      have hkey : acc + v % 128 * 2 ^ m + v / 128 * 2 ^ (m + 7) = acc + v * 2 ^ m := by
        have hmod : v % 128 + 128 * (v / 128) = v := Nat.mod_add_div v 128
        calc acc + v % 128 * 2 ^ m + v / 128 * 2 ^ (m + 7)
            = acc + v % 128 * 2 ^ m + v / 128 * (2 ^ m * 2 ^ 7) := by rw [Nat.pow_add]
          _ = acc + (v % 128 + 128 * (v / 128)) * 2 ^ m := by ring
          _ = acc + v * 2 ^ m := by rw [hmod]
      have hfacts := byteFacts (v % 128) hr
      have hbound2 : acc + v % 128 * 2 ^ m + v / 128 * 2 ^ (m + 7) < 4294967296 := by
        rw [hkey]; exact hbound
      rw [writeIntegerLoop, if_pos hbig, List.cons_append, readIntegerLoop]
      simp only [hfacts.1, hfacts.2.1, hfacts.2.2.1]
      rw [if_neg (by omega), if_neg (by omega)]
      rw [show u32 (acc + v % 128 * 2 ^ m) = acc + v % 128 * 2 ^ m from by
        rw [u32]; exact Nat.mod_eq_of_lt hval2]
      rw [ih (v / 128) (acc + v % 128 * 2 ^ m) (m + 7) tail hdiv hbound2 (by omega) hmle]
      rw [hkey]
    · push_neg at hbig
      have hfacts := byteFacts v hbig
      have hacc : acc + v * 2 ^ m < 4294967296 := hbound
      rw [writeIntegerLoop, if_neg (by omega), List.cons_append, readIntegerLoop]
      simp [hfacts.2.2.2.1, hfacts.2.2.2.2, u32, Nat.mod_eq_of_lt hacc]

/-- C6: for every value below 2^32 and every prefix width 1..8, decoding the
bytes produced by the HPACK integer writer returns the value and consumes
exactly the written bytes; with prefix width 5, value 10 encodes to 0x0A and
value 1337 to 0x1F 0x9A 0x0A, and decoding reverses both. -/
theorem c6_integer_roundtrip :
    (∀ prefixBits value tail, 1 ≤ prefixBits → prefixBits ≤ 8 → value < 4294967296 →
      writeInteger value prefixBits 0 = .ok (writeIntegerCore value prefixBits 0) ∧
      readInteger prefixBits (writeIntegerCore value prefixBits 0 ++ tail) = .ok (value, tail)) ∧
    writeInteger 10 5 0 = .ok [0x0A] ∧
    writeInteger 1337 5 0 = .ok [0x1F, 0x9A, 0x0A] ∧
    readInteger 5 [0x0A] = .ok (10, []) ∧
    readInteger 5 [0x1F, 0x9A, 0x0A] = .ok (1337, []) := by
  refine ⟨?_, rfl, rfl, rfl, rfl⟩
  intro prefixBits value tail h1 h8 hv
  refine ⟨by rw [writeInteger, if_neg (by omega)], ?_⟩
  by_cases hsmall : value < 2 ^ prefixBits - 1
  · have hlt2 : value < 2 ^ prefixBits := lt_of_lt_of_le hsmall (Nat.sub_le _ _)
    rw [writeIntegerCore]
    simp only [if_pos hsmall, Nat.zero_or, List.cons_append, List.nil_append]
    rw [readInteger, if_neg (by omega)]
    simp only [Nat.and_pow_two_sub_one_of_lt_two_pow hlt2]
    rw [if_pos hsmall]
  · push_neg at hsmall
    have hnotlt : ¬(value < 2 ^ prefixBits - 1) := by omega
    rw [writeIntegerCore]
    simp only [if_neg hnotlt, Nat.zero_or, List.cons_append]
    rw [readInteger, if_neg (by omega)]
    simp only [Nat.and_self, if_neg (lt_irrefl (2 ^ prefixBits - 1))]
    have hloop := readLoop_writeLoop (value - (2 ^ prefixBits - 1)) (value - (2 ^ prefixBits - 1))
      (2 ^ prefixBits - 1) 0 tail le_rfl
      (by rw [pow_zero, Nat.mul_one]; omega) (by omega) (by omega)
    rw [pow_zero, Nat.mul_one] at hloop
    rw [hloop]
    congr 1
    rw [Prod.mk.injEq]
    exact ⟨by omega, rfl⟩

/-- C5 counterexample: a continuation of five bytes carries bits up to
position 34 (more than 28 bits of continuation), yet when its fifth byte has
a clear high bit the reader returns the uint32-wrapped value 126 of the true
sum 34359738494 with no error, refuting the claim that such input always
errors. -/
theorem c5_silent_wrap_counterexample :
    readInteger 7 [0x7F, 0xFF, 0xFF, 0xFF, 0xFF, 0x7F] = .ok (126, []) ∧
    u32 (127 + 127 * (1 + 128 + 16384 + 2097152 + 268435456)) = 126 ∧
    127 + 127 * (1 + 128 + 16384 + 2097152 + 268435456) ≠ 126 := by
  refine ⟨rfl, by norm_num [u32], by norm_num⟩

/-- C5 amended: the integer reader errors with integer overflow exactly when
a sixth continuation byte is demanded, i.e. when the fifth continuation byte
still has its high bit set; a continuation ending at the fifth byte is
accepted with its contribution added in wrapping uint32 arithmetic. -/
theorem c5_integer_overflow_amended :
    ∀ prefixBits b k1 k2 k3 k4 k5 rest,
      1 ≤ prefixBits → prefixBits ≤ 8 →
      b &&& (2 ^ prefixBits - 1) = 2 ^ prefixBits - 1 →
      k1 &&& 0x80 ≠ 0 → k2 &&& 0x80 ≠ 0 → k3 &&& 0x80 ≠ 0 → k4 &&& 0x80 ≠ 0 →
      k5 &&& 0x80 ≠ 0 →
      readInteger prefixBits (b :: k1 :: k2 :: k3 :: k4 :: k5 :: rest) =
        .error "integer overflow" := by
  intro prefixBits b k1 k2 k3 k4 k5 rest h1 h8 hb hk1 hk2 hk3 hk4 hk5
  rw [readInteger, if_neg (by omega)]
  simp only [hb, if_neg (lt_irrefl (2 ^ prefixBits - 1))]
  rw [readIntegerLoop]
  simp only [if_neg hk1]
  rw [if_neg (by omega), readIntegerLoop]
  simp only [if_neg hk2]
  rw [if_neg (by omega), readIntegerLoop]
  simp only [if_neg hk3]
  rw [if_neg (by omega), readIntegerLoop]
  simp only [if_neg hk4]
  rw [if_neg (by omega), readIntegerLoop]
  simp only [if_neg hk5]
  rw [if_pos (by omega)]

/-- C4 counterexample: the byte 0x80 is a Huffman-flagged string of declared
length zero, and the string reader decodes it successfully to the empty
string (the length-zero early return precedes the Huffman check), refuting
the claim that every Huffman-flagged string errors. -/
theorem c4_huffman_zero_length_counterexample :
    (0x80 : Nat) &&& 0x80 ≠ 0 ∧ readString [0x80] = .ok ([], []) :=
  ⟨by decide, rfl⟩

/-- C4 amended: a Huffman-flagged string is never decoded to anything but
the empty string: whenever the string reader succeeds on input whose first
byte has the Huffman bit set, the declared length was zero and the result is
empty; every nonzero declared length fails. -/
theorem c4_huffman_flag_amended :
    ∀ b rest s remainder,
      b &&& 0x80 ≠ 0 →
      readString (b :: rest) = .ok (s, remainder) →
      s = [] ∧ readInteger 7 (b :: rest) = .ok (0, remainder) := by
  intro b rest s remainder hb hok
  rw [readString] at hok
  cases h : readInteger 7 (b :: rest) with
  | error e =>
    simp only [h] at hok
    exact Except.noConfusion hok
  | ok p =>
    obtain ⟨len, rest2⟩ := p
    simp only [h] at hok
    by_cases hlen : len = 0
    · subst hlen
      rw [if_pos rfl] at hok
      simp only [Except.ok.injEq, Prod.mk.injEq] at hok
      obtain ⟨hs, hr⟩ := hok
      subst hr
      exact ⟨hs.symm, rfl⟩
    · rw [if_neg hlen, if_pos hb] at hok
      split at hok
      · exact Except.noConfusion hok
      · split at hok
        · exact Except.noConfusion hok
        · exact Except.noConfusion hok

theorem fieldSize_lt (f : HeaderField) : f.size < 4294967296 := by
  rw [HeaderField.size, u32]
  exact Nat.mod_lt _ (by norm_num)

theorem sizeSum_cons (f : HeaderField) (l : List HeaderField) :
    sizeSum (f :: l) = f.size + sizeSum l := by
  simp [sizeSum]

theorem sizeSum_getLast? :
    ∀ (l : List HeaderField) (lst : HeaderField), l.getLast? = some lst →
      sizeSum l = sizeSum l.dropLast + lst.size := by
  intro l
  induction l with
  | nil => intro lst h; exact Option.noConfusion h
  | cons a t ih =>
    intro lst h
    cases t with
    | nil =>
      simp only [List.getLast?_singleton, Option.some.injEq] at h
      subst h
      simp [sizeSum]
    | cons b t2 =>
      rw [List.getLast?_cons_cons] at h
      rw [List.dropLast_cons₂]
      calc sizeSum (a :: b :: t2) = a.size + sizeSum (b :: t2) := sizeSum_cons _ _
        _ = a.size + (sizeSum (b :: t2).dropLast + lst.size) := by rw [ih lst h]
        _ = sizeSum (a :: (b :: t2).dropLast) + lst.size := by rw [sizeSum_cons]; omega

theorem evictOldest_inv (dt : DynamicTable) (h : dt.size = u32 (sizeSum dt.entries)) :
    dt.evictOldest.size = u32 (sizeSum dt.evictOldest.entries) := by
  rw [DynamicTable.evictOldest]
  cases hg : dt.entries.getLast? with
  | none => exact h
  | some lst =>
    simp only
    rw [h, sizeSum_getLast? dt.entries lst hg]
    have := fieldSize_lt lst
    rw [u32sub, u32, u32, u32]
    omega

theorem addEvictLoop_inv :
    ∀ (fuel : Nat) (dt : DynamicTable) (fs : Nat), dt.size = u32 (sizeSum dt.entries) →
      (addEvictLoop fuel dt fs).size = u32 (sizeSum (addEvictLoop fuel dt fs).entries) := by
  intro fuel
  induction fuel with
  | zero => intro dt fs h; exact h
  | succ fuel ih =>
    intro dt fs h
    rw [addEvictLoop]
    split
    · exact ih dt.evictOldest fs (evictOldest_inv dt h)
    · exact h

theorem add_inv (dt : DynamicTable) (name value : List Nat)
    (h : dt.size = u32 (sizeSum dt.entries)) :
    (dt.add name value).size = u32 (sizeSum (dt.add name value).entries) := by
  rw [DynamicTable.add]
  split
  · simp [DynamicTable.evictAll, sizeSum, u32]
  · have h2 := addEvictLoop_inv dt.entries.length dt
      (HeaderField.size ⟨name, value⟩) h
    simp only [sizeSum_cons]
    rw [h2, u32add, u32, u32, u32]
    omega

theorem setMaxSizeLoop_inv :
    ∀ (fuel : Nat) (dt : DynamicTable), dt.size = u32 (sizeSum dt.entries) →
      (setMaxSizeLoop fuel dt).size = u32 (sizeSum (setMaxSizeLoop fuel dt).entries) := by
  intro fuel
  induction fuel with
  | zero => intro dt h; exact h
  | succ fuel ih =>
    intro dt h
    rw [setMaxSizeLoop]
    split
    · exact ih dt.evictOldest (evictOldest_inv dt h)
    · exact h

theorem setMaxSize_inv (dt : DynamicTable) (m : Nat)
    (h : dt.size = u32 (sizeSum dt.entries)) :
    (dt.setMaxSize m).size = u32 (sizeSum (dt.setMaxSize m).entries) := by
  rw [DynamicTable.setMaxSize]
  exact setMaxSizeLoop_inv _ _ h

theorem runDTOps_inv :
    ∀ (ops : List DTOp) (dt : DynamicTable), dt.size = u32 (sizeSum dt.entries) →
      (runDTOps ops dt).size = u32 (sizeSum (runDTOps ops dt).entries) := by
  intro ops
  induction ops with
  | nil => intro dt h; exact h
  | cons op rest ih =>
    intro dt h
    rw [runDTOps]
    cases op with
    | add name value => exact ih _ (add_inv dt name value h)
    | setMaxSize m => exact ih _ (setMaxSize_inv dt m h)
    | get i => exact ih _ h
    | findExact n v => exact ih _ h
    | findName n => exact ih _ h

/-- C9: after any sequence of Add, Get, FindExact, FindName and SetMaxSize
operations from a fresh dynamic table, the size field equals the sum of
len(name) + len(value) + 32 over the current entries (as the uint32 value of
that sum; the two coincide whenever the sum fits in 32 bits, in particular
in every reachable bounded state). -/
theorem c9_dynamic_table_size_invariant :
    ∀ (maxSize : Nat) (ops : List DTOp),
      (runDTOps ops (newDynamicTable maxSize)).size =
          u32 (sizeSum (runDTOps ops (newDynamicTable maxSize)).entries) ∧
      (sizeSum (runDTOps ops (newDynamicTable maxSize)).entries < 4294967296 →
        (runDTOps ops (newDynamicTable maxSize)).size =
          sizeSum (runDTOps ops (newDynamicTable maxSize)).entries) := by
  intro maxSize ops
  have h0 : (newDynamicTable maxSize).size =
      u32 (sizeSum (newDynamicTable maxSize).entries) := rfl
  have h := runDTOps_inv ops (newDynamicTable maxSize) h0
  exact ⟨h, fun hlt => by rw [h, u32, Nat.mod_eq_of_lt hlt]⟩

/-- C1: encode-decode roundtrip violation witnessing the code bug.  With a
paired encoder and decoder (same max size 4096, both tables empty), the
sequence x-a:1, x-a:2, x-a:1 decodes to x-a:1, x-a:2, x-a:2 - the third set
comes back wrong, because the encoder emits literal-with-incremental-indexing
representations with a name reference without inserting into its own dynamic
table while the decoder inserts, so the two tables fall out of step. -/
theorem c1_roundtrip_code_bug :
    roundtripSeq (newDynamicTable 4096) (newDynamicTable 4096)
        [[(bstr "x-a", bstr "1")], [(bstr "x-a", bstr "2")], [(bstr "x-a", bstr "1")]] =
      .ok [[(bstr "x-a", bstr "1")], [(bstr "x-a", bstr "2")], [(bstr "x-a", bstr "2")]] ∧
    ([(bstr "x-a", bstr "2")] : List (List Nat × List Nat)) ≠ [(bstr "x-a", bstr "1")] :=
  ⟨rfl, by decide⟩

/-- C8: adding a header field whose size len(name) + len(value) + 32 is
strictly greater than the table maximum leaves the dynamic table empty with
size 0: previously present entries are removed and the oversize entry is not
inserted. -/
theorem c8_oversize_add_empties :
    ∀ (dt : DynamicTable) (name value : List Nat),
      dt.maxSize < HeaderField.size ⟨name, value⟩ →
      (dt.add name value).entries = [] ∧ (dt.add name value).size = 0 := by
  intro dt name value h
  simp only [DynamicTable.add, if_pos h]
  exact ⟨rfl, rfl⟩

theorem c8_oversize_add_witness :
    (newDynamicTable 10).maxSize < HeaderField.size ⟨bstr "a", bstr "b"⟩ ∧
    ((newDynamicTable 10).add (bstr "a") (bstr "b")).entries = [] ∧
    ((newDynamicTable 10).add (bstr "a") (bstr "b")).size = 0 :=
  ⟨by decide, c8_oversize_add_empties (newDynamicTable 10) (bstr "a") (bstr "b") (by decide)⟩

theorem c6_integer_roundtrip_witness :
    writeInteger 1337 5 0 = .ok (writeIntegerCore 1337 5 0) ∧
    readInteger 5 (writeIntegerCore 1337 5 0 ++ []) = .ok (1337, []) :=
  c6_integer_roundtrip.1 5 1337 [] (by decide) (by decide) (by decide)

theorem c5_integer_overflow_witness :
    readInteger 7 [0xFF, 0xFF, 0xFF, 0xFF, 0xFF, 0xFF] = .error "integer overflow" :=
  c5_integer_overflow_amended 7 0xFF 0xFF 0xFF 0xFF 0xFF 0xFF []
    (by decide) (by decide) (by decide) (by decide) (by decide) (by decide) (by decide)
    (by decide)

theorem c4_huffman_flag_witness :
    ([] : List Nat) = [] ∧ readInteger 7 [0x80] = .ok (0, []) :=
  c4_huffman_flag_amended 0x80 [] [] [] (by decide) rfl

theorem c9_dynamic_table_size_witness :
    (runDTOps [.add (bstr "a") (bstr "b"), .add (bstr "xx") (bstr "yyyyy")]
        (newDynamicTable 64)).size =
      sizeSum (runDTOps [.add (bstr "a") (bstr "b"), .add (bstr "xx") (bstr "yyyyy")]
        (newDynamicTable 64)).entries :=
  (c9_dynamic_table_size_invariant 64
    [.add (bstr "a") (bstr "b"), .add (bstr "xx") (bstr "yyyyy")]).2 (by decide)

end Hpack

namespace Proto

theorem flagsFacts : ∀ t : Nat, t < 8 →
    ((t &&& 7) ||| 8) &&& 7 = t ∧ (((t &&& 7) ||| 8) &&& 8 ≠ 0) ∧
    (t &&& 7) &&& 7 = t ∧ (t &&& 7) &&& 8 = 0 := by decide

theorem combine16 : ∀ n : Nat, n ≤ 65535 → (n >>> 8) % 256 * 256 + n % 256 = n := by
  intro n hn
  rw [Nat.shiftRight_eq_div_pow]
  have h256 : (2 : Nat) ^ 8 = 256 := by norm_num
  rw [h256]
  have hdiv : n / 256 < 256 := by omega
  rw [Nat.mod_eq_of_lt hdiv]
  omega

theorem unmarshal_marshal (h0 h : DataHeader) (tail : List Nat)
    (ht : h.type < 8) (hsl : h.streamID.length ≤ 65535) (hrl : h.requestID.length ≤ 65535) :
    unmarshalBinary h0 (marshalBinary h ++ tail) = (h, none) := by
  obtain ⟨t, il, sid, rid⟩ := h
  simp only at ht hsl hrl
  have hsl16 : sid.length % 65536 = sid.length := Nat.mod_eq_of_lt (by omega)
  have hrl16 : rid.length % 65536 = rid.length := Nat.mod_eq_of_lt (by omega)
  simp only [marshalBinary, dataHeaderFixedBytes, hsl16, hrl16, List.cons_append,
    List.nil_append, List.append_assoc]
  rw [unmarshalBinary]
  rw [combine16 sid.length hsl, combine16 rid.length hrl]
  rw [if_neg (by simp [binaryHeaderMinSize]; omega)]
  rw [List.take_left' rfl, List.drop_left' rfl, List.take_left' rfl]
  simp only [Prod.mk.injEq, and_true]
  cases il with
  | false =>
    have hf := flagsFacts t ht
    simp [dataHeaderFlags, hf.2.2.1, hf.2.2.2]
  | true =>
    have hf := flagsFacts t ht
    simp [dataHeaderFlags, hf.1, hf.2.1]

/-- C7: for every DataHeader whose type fits in 3 bits and whose streamID
and requestID are each at most 65535 bytes, decoding the encoded Data
payload returns exactly the header and data; the concrete header of type
http_body_chunk (6) with isLast, streamID s1, requestID r and data abc
encodes to an 11-byte payload that decodes to identical values. -/
theorem c7_data_payload_roundtrip :
    (∀ (h : DataHeader) (d : List Nat),
       h.type < 8 → h.streamID.length ≤ 65535 → h.requestID.length ≤ 65535 →
       decodeDataPayload (encodeDataPayload h d) = .ok (h, d)) ∧
    (encodeDataPayload ⟨6, true, bstr "s1", bstr "r"⟩ (bstr "abc")).length = 11 ∧
    decodeDataPayload (encodeDataPayload ⟨6, true, bstr "s1", bstr "r"⟩ (bstr "abc")) =
      .ok (⟨6, true, bstr "s1", bstr "r"⟩, bstr "abc") := by
  refine ⟨?_, rfl, rfl⟩
  intro h d ht hsl hrl
  have hmlen : (marshalBinary h).length = 5 + h.streamID.length + h.requestID.length := by
    simp [marshalBinary, dataHeaderFixedBytes]
    omega
  rw [decodeDataPayload, encodeDataPayload]
  rw [if_neg (by simp [hmlen, binaryHeaderMinSize]; omega)]
  rw [unmarshal_marshal emptyDataHeader h d ht hsl hrl]
  split
  next fst e heq => exact absurd heq (by simp)
  next header heq =>
    obtain ⟨rfl, -⟩ : h = header ∧ (none : Option String) = none := by
      simpa [Prod.mk.injEq] using heq
    rw [if_neg (by simp [hmlen, DataHeader.size, binaryHeaderMinSize])]
    rw [show DataHeader.size h = (marshalBinary h).length from by
      simp [DataHeader.size, binaryHeaderMinSize, hmlen]]
    rw [List.drop_left]

/-- C10: DataHeader.UnmarshalBinary is not atomic on failure: on input of at
least five bytes whose declared streamID and requestID lengths exceed the
bytes available, it returns the length-mismatch error after having already
overwritten the receiver Type and IsLast fields from the flags byte, while
StreamID and RequestID keep their prior values. -/
theorem c10_unmarshal_mutation_on_failure :
    ∀ (h : DataHeader) (flags s1 s0 r1 r0 : Nat) (rest : List Nat),
      (flags :: s1 :: s0 :: r1 :: r0 :: rest).length <
        binaryHeaderMinSize + (s1 * 256 + s0) + (r1 * 256 + r0) →
      unmarshalBinary h (flags :: s1 :: s0 :: r1 :: r0 :: rest) =
        ({ h with type := flags &&& 0x07, isLast := flags &&& 0x08 ≠ 0 },
         some "invalid binary header: length mismatch") := by
  intro h flags s1 s0 r1 r0 rest hlen
  rw [unmarshalBinary, if_pos hlen]

theorem c10_unmarshal_mutation_witness :
    unmarshalBinary { type := 0, isLast := false, streamID := bstr "old", requestID := bstr "req" }
        [9, 0, 1, 0, 0] =
      ({ type := 1, isLast := true, streamID := bstr "old", requestID := bstr "req" },
       some "invalid binary header: length mismatch") := by
  have := c10_unmarshal_mutation_on_failure
    { type := 0, isLast := false, streamID := bstr "old", requestID := bstr "req" }
    9 0 1 0 0 [] (by decide)
  simpa using this

theorem c7_data_payload_roundtrip_witness :
    decodeDataPayload (encodeDataPayload ⟨4, false, bstr "st", bstr "rq"⟩ (bstr "xyz")) =
      .ok (⟨4, false, bstr "st", bstr "rq"⟩, bstr "xyz") :=
  c7_data_payload_roundtrip.1 ⟨4, false, bstr "st", bstr "rq"⟩ (bstr "xyz")
    (by decide) (by decide) (by decide)

end Proto

namespace FW

theorem countI_cons (a : Int) (t : List Int) :
    markerCountI (a :: t) = (if a ≠ 0 then (1 : Int) else 0) + markerCountI t := by
  simp [markerCountI]

theorem sum_set_zero : ∀ (l : List Int) (i : Nat), (l.set i 0).sum = l.sum - l.getD i 0 := by
  intro l
  induction l with
  | nil => intro i; simp
  | cons a t ih =>
    intro i
    cases i with
    | zero => simp [List.sum_cons]
    | succ n =>
      simp only [List.set_cons_succ, List.sum_cons, List.getD_cons_succ, ih n]
      omega

theorem countI_set_zero : ∀ (l : List Int) (i : Nat),
    markerCountI (l.set i 0) = markerCountI l - (if l.getD i 0 ≠ 0 then (1 : Int) else 0) := by
  intro l
  induction l with
  | nil => intro i; simp [markerCountI]
  | cons a t ih =>
    intro i
    cases i with
    | zero =>
      simp only [List.set_cons_zero, List.getD_cons_zero, countI_cons]
      simp
    | succ n =>
      simp only [List.set_cons_succ, List.getD_cons_succ, countI_cons, ih n]
      omega

theorem getD_set_self : ∀ (l : List Int) (i : Nat), (l.set i (0 : Int)).getD i 0 = 0 := by
  intro l
  induction l with
  | nil => intro i; simp
  | cons a t ih =>
    intro i
    cases i with
    | zero => simp
    | succ n => simpa using ih n

theorem getD_set_ne : ∀ (l : List Int) (i j : Nat) (x : Int), j ≠ i →
    (l.set i x).getD j 0 = l.getD j 0 := by
  intro l
  induction l with
  | nil => intro i j x _; simp
  | cons a t ih =>
    intro i j x hne
    cases i with
    | zero =>
      cases j with
      | zero => exact absurd rfl hne
      | succ m => simp
    | succ n =>
      cases j with
      | zero => simp
      | succ m => simpa using ih n m x (fun h => hne (by rw [h]))

theorem sum_snoc (l : List Int) (x : Int) : (l ++ [x]).sum = l.sum + x := by
  simp

theorem countI_snoc (l : List Int) (x : Int) :
    markerCountI (l ++ [x]) = markerCountI l + (if x ≠ 0 then (1 : Int) else 0) := by
  simp [markerCountI]

theorem getD_snoc_self (l : List Int) (x : Int) : (l ++ [x]).getD l.length 0 = x := by
  rw [List.getD_append_right _ _ _ _ le_rfl, Nat.sub_self]
  rfl

theorem getD_snoc_lt (l : List Int) (x : Int) (j : Nat) (h : j < l.length) :
    (l ++ [x]).getD j 0 = l.getD j 0 :=
  List.getD_append _ _ _ _ h

theorem getD_snoc_gt (l : List Int) (x : Int) (j : Nat) (h : l.length < j) :
    (l ++ [x]).getD j 0 = 0 := by
  rw [List.getD_append_right _ _ _ _ (by omega)]
  exact List.getD_eq_default _ _ (by simp; omega)

theorem getD_oob (l : List Int) (j : Nat) (h : l.length ≤ j) : l.getD j 0 = 0 :=
  List.getD_eq_default _ _ h

theorem sum_countI_of_allZero : ∀ l : List Int, (∀ j, l.getD j 0 = 0) →
    l.sum = 0 ∧ markerCountI l = 0 := by
  intro l
  induction l with
  | nil => intro _; simp [markerCountI]
  | cons a t ih =>
    intro h
    have ha : a = 0 := h 0
    have ht := ih (fun j => h (j + 1))
    subst ha
    simp only [List.sum_cons, countI_cons, ht.1, ht.2]
    simp

theorem unmark_fields (s : WState) (fid : Nat) :
    (unmarkQueued s fid).markers = s.markers.set fid 0 ∧
    (unmarkQueued s fid).dataQ = s.dataQ ∧
    (unmarkQueued s fid).ctrlQ = s.ctrlQ ∧
    (unmarkQueued s fid).batch = s.batch ∧
    (unmarkQueued s fid).closed = s.closed ∧
    (unmarkQueued s fid).doneClosed = s.doneClosed ∧
    (unmarkQueued s fid).writeErr = s.writeErr ∧
    (unmarkQueued s fid).emitted = s.emitted ∧
    (unmarkQueued s fid).connCalls = s.connCalls := by
  unfold unmarkQueued
  dsimp only
  split <;> exact ⟨rfl, rfl, rfl, rfl, rfl, rfl, rfl, rfl, rfl⟩

theorem unmark_counters (s : WState) (fid : Nat) (hc : countersInv s) (hn : nonnegInv s) :
    countersInv (unmarkQueued s fid) := by
  obtain ⟨hb, hf⟩ := hc
  unfold unmarkQueued countersInv
  dsimp only
  by_cases hle : s.markers.getD fid 0 ≤ 0
  · have h0 : s.markers.getD fid 0 = 0 := le_antisymm hle (hn fid)
    rw [if_pos hle]
    refine ⟨?_, ?_⟩
    · show s.queuedBytes = (s.markers.set fid 0).sum
      rw [sum_set_zero, h0, hb]
      omega
    · show s.queuedFrames = markerCountI (s.markers.set fid 0)
      rw [countI_set_zero, h0, hf]
      simp
  · rw [if_neg hle]
    push_neg at hle
    refine ⟨?_, ?_⟩
    · show s.queuedBytes - s.markers.getD fid 0 = (s.markers.set fid 0).sum
      rw [sum_set_zero, hb]
    · show s.queuedFrames - 1 = markerCountI (s.markers.set fid 0)
      rw [countI_set_zero, if_pos (by omega : s.markers.getD fid 0 ≠ 0), hf]

theorem unmark_nonneg (s : WState) (fid : Nat) (hn : nonnegInv s) :
    nonnegInv (unmarkQueued s fid) := by
  intro i
  rw [(unmark_fields s fid).1]
  by_cases h : i = fid
  · subst h
    rw [getD_set_self]
  · rw [getD_set_ne _ _ _ _ h]
    exact hn i

theorem unmark_owned (s : WState) (fid : Nat) (ho : ownedInv s) :
    ownedInv (unmarkQueued s fid) := by
  intro j hj
  have hf := unmark_fields s fid
  rw [hf.1] at hj
  rw [hf.2.1, hf.2.2.1, hf.2.2.2.1]
  by_cases h : j = fid
  · subst h
    rw [getD_set_self] at hj
    exact absurd rfl hj
  · rw [getD_set_ne _ _ _ _ h] at hj
    exact ho j hj

theorem flushFrame_fields (p : WParams) (s : WState) (fid : Nat) :
    (flushFrame p s fid).markers = s.markers.set fid 0 ∧
    (flushFrame p s fid).dataQ = s.dataQ ∧
    (flushFrame p s fid).ctrlQ = s.ctrlQ ∧
    (flushFrame p s fid).batch = s.batch := by
  unfold flushFrame
  dsimp only
  split
  · split
    · exact ⟨(unmark_fields _ _).1, (unmark_fields _ _).2.1, (unmark_fields _ _).2.2.1,
        (unmark_fields _ _).2.2.2.1⟩
    · exact ⟨(unmark_fields _ _).1, (unmark_fields _ _).2.1, (unmark_fields _ _).2.2.1,
        (unmark_fields _ _).2.2.2.1⟩
  · exact ⟨(unmark_fields _ _).1, (unmark_fields _ _).2.1, (unmark_fields _ _).2.2.1,
      (unmark_fields _ _).2.2.2.1⟩

theorem flushFrame_counters (p : WParams) (s : WState) (fid : Nat)
    (hc : countersInv s) (hn : nonnegInv s) : countersInv (flushFrame p s fid) := by
  unfold flushFrame
  dsimp only
  split
  · split
    · exact unmark_counters _ _ hc hn
    · exact unmark_counters _ _ hc hn
  · exact unmark_counters _ _ hc hn

theorem flushFrame_nonneg (p : WParams) (s : WState) (fid : Nat) (hn : nonnegInv s) :
    nonnegInv (flushFrame p s fid) := by
  unfold flushFrame
  dsimp only
  split
  · split
    · exact unmark_nonneg _ _ hn
    · exact unmark_nonneg _ _ hn
  · exact unmark_nonneg _ _ hn

theorem flushFrame_owned (p : WParams) (s : WState) (fid : Nat) (ho : ownedInv s) :
    ownedInv (flushFrame p s fid) := by
  unfold flushFrame
  dsimp only
  split
  · split
    · exact unmark_owned _ _ ho
    · exact unmark_owned _ _ ho
  · exact unmark_owned _ _ ho

theorem foldl_flush_fields : ∀ (ids : List Nat) (p : WParams) (s : WState),
    (ids.foldl (flushFrame p) s).dataQ = s.dataQ ∧
    (ids.foldl (flushFrame p) s).ctrlQ = s.ctrlQ ∧
    (ids.foldl (flushFrame p) s).batch = s.batch := by
  intro ids
  induction ids with
  | nil => intro p s; exact ⟨rfl, rfl, rfl⟩
  | cons i t ih =>
    intro p s
    rw [List.foldl_cons]
    have h1 := ih p (flushFrame p s i)
    have h2 := flushFrame_fields p s i
    exact ⟨h1.1.trans h2.2.1, h1.2.1.trans h2.2.2.1, h1.2.2.trans h2.2.2.2⟩

theorem foldl_flush_inv : ∀ (ids : List Nat) (p : WParams) (s : WState),
    countersInv s → nonnegInv s → ownedInv s →
    countersInv (ids.foldl (flushFrame p) s) ∧ nonnegInv (ids.foldl (flushFrame p) s) ∧
      ownedInv (ids.foldl (flushFrame p) s) := by
  intro ids
  induction ids with
  | nil => intro p s hc hn ho; exact ⟨hc, hn, ho⟩
  | cons i t ih =>
    intro p s hc hn ho
    rw [List.foldl_cons]
    exact ih p _ (flushFrame_counters p s i hc hn) (flushFrame_nonneg p s i hn)
      (flushFrame_owned p s i ho)

theorem foldl_flush_getD : ∀ (ids : List Nat) (p : WParams) (s : WState) (j : Nat),
    (ids.foldl (flushFrame p) s).markers.getD j 0 = 0 ∨
    ((ids.foldl (flushFrame p) s).markers.getD j 0 = s.markers.getD j 0 ∧ j ∉ ids) := by
  intro ids
  induction ids with
  | nil => intro p s j; exact Or.inr ⟨rfl, List.not_mem_nil j⟩
  | cons i t ih =>
    intro p s j
    rw [List.foldl_cons]
    rcases ih p (flushFrame p s i) j with h | ⟨heq, hnot⟩
    · exact Or.inl h
    · rw [(flushFrame_fields p s i).1] at heq
      by_cases hji : j = i
      · subst hji
        rw [getD_set_self] at heq
        exact Or.inl heq
      · rw [getD_set_ne _ _ _ _ hji] at heq
        exact Or.inr ⟨heq, by simp [hji, hnot]⟩

theorem foldl_unmark_fields : ∀ (ids : List Nat) (s : WState),
    (ids.foldl unmarkQueued s).dataQ = s.dataQ ∧
    (ids.foldl unmarkQueued s).ctrlQ = s.ctrlQ ∧
    (ids.foldl unmarkQueued s).batch = s.batch ∧
    (ids.foldl unmarkQueued s).closed = s.closed ∧
    (ids.foldl unmarkQueued s).doneClosed = s.doneClosed := by
  intro ids
  induction ids with
  | nil => intro s; exact ⟨rfl, rfl, rfl, rfl, rfl⟩
  | cons i t ih =>
    intro s
    rw [List.foldl_cons]
    have h1 := ih (unmarkQueued s i)
    have h2 := unmark_fields s i
    exact ⟨h1.1.trans h2.2.1, h1.2.1.trans h2.2.2.1, h1.2.2.1.trans h2.2.2.2.1,
      h1.2.2.2.1.trans h2.2.2.2.2.1, h1.2.2.2.2.trans h2.2.2.2.2.2.1⟩

theorem foldl_unmark_inv : ∀ (ids : List Nat) (s : WState),
    countersInv s → nonnegInv s →
    countersInv (ids.foldl unmarkQueued s) ∧ nonnegInv (ids.foldl unmarkQueued s) := by
  intro ids
  induction ids with
  | nil => intro s hc hn; exact ⟨hc, hn⟩
  | cons i t ih =>
    intro s hc hn
    rw [List.foldl_cons]
    exact ih _ (unmark_counters s i hc hn) (unmark_nonneg s i hn)

theorem foldl_unmark_getD : ∀ (ids : List Nat) (s : WState) (j : Nat),
    (ids.foldl unmarkQueued s).markers.getD j 0 = 0 ∨
    ((ids.foldl unmarkQueued s).markers.getD j 0 = s.markers.getD j 0 ∧ j ∉ ids) := by
  intro ids
  induction ids with
  | nil => intro s j; exact Or.inr ⟨rfl, List.not_mem_nil j⟩
  | cons i t ih =>
    intro s j
    rw [List.foldl_cons]
    rcases ih (unmarkQueued s i) j with h | ⟨heq, hnot⟩
    · exact Or.inl h
    · rw [(unmark_fields s i).1] at heq
      by_cases hji : j = i
      · subst hji
        rw [getD_set_self] at heq
        exact Or.inl heq
      · rw [getD_set_ne _ _ _ _ hji] at heq
        exact Or.inr ⟨heq, by simp [hji, hnot]⟩

end FW

namespace FW

theorem frameSize_pos (n : Nat) : 0 < frameSize n := by
  simp [frameSize, frameHeaderSize]
  omega

theorem flushBatch_fields (p : WParams) (s : WState) :
    (flushBatch p s).dataQ = s.dataQ ∧ (flushBatch p s).ctrlQ = s.ctrlQ ∧
    (flushBatch p s).batch = [] := by
  unfold flushBatch
  dsimp only
  exact ⟨(foldl_flush_fields s.batch p s).1, (foldl_flush_fields s.batch p s).2.1, rfl⟩

theorem flushBatch_counters (p : WParams) (s : WState) (hc : countersInv s)
    (hn : nonnegInv s) (ho : ownedInv s) :
    countersInv (flushBatch p s) ∧ nonnegInv (flushBatch p s) := by
  have h := foldl_flush_inv s.batch p s hc hn ho
  exact ⟨h.1, h.2.1⟩

theorem flushBatch_owned (p : WParams) (s : WState) (ho : ownedInv s) :
    ownedInv (flushBatch p s) := by
  intro j hj
  have hfb := flushBatch_fields p s
  rcases foldl_flush_getD s.batch p s j with h0 | ⟨heq, hout⟩
  · exact absurd h0 hj
  · rw [show (flushBatch p s).markers = (s.batch.foldl (flushFrame p) s).markers from rfl,
      heq] at hj
    rcases ho j hj with hd | hcq | hbq
    · rw [hfb.1]
      exact Or.inl hd
    · rw [hfb.2.1]
      exact Or.inr (Or.inl hcq)
    · exact absurd hbq hout

theorem writeFrameOp_inv (p : WParams) (s : WState) (n : Nat) (c : Bool)
    (h : WInv s) : WInv (writeFrameOp p s n c).1 := by
  obtain ⟨hc, ho, hn⟩ := h
  unfold writeFrameOp
  dsimp only
  split
  · exact ⟨hc, ho, hn⟩
  · split
    · refine ⟨⟨?_, ?_⟩, ?_, ?_⟩
      · show s.queuedBytes + frameSize n = (s.markers ++ [frameSize n]).sum
        rw [sum_snoc, hc.1]
      · show s.queuedFrames + 1 = markerCountI (s.markers ++ [frameSize n])
        rw [countI_snoc, hc.2, if_pos (by have := frameSize_pos n; omega)]
      · intro j hj
        show j ∈ s.dataQ ++ [s.markers.length] ∨ j ∈ s.ctrlQ ∨ j ∈ s.batch
        rcases Nat.lt_trichotomy j s.markers.length with hlt | heq | hgt
        · dsimp only at hj
          rw [getD_snoc_lt _ _ _ hlt] at hj
          rcases ho j hj with hd | hcq | hbq
          · exact Or.inl (List.mem_append_left _ hd)
          · exact Or.inr (Or.inl hcq)
          · exact Or.inr (Or.inr hbq)
        · subst heq
          exact Or.inl (List.mem_append_right _ (List.mem_singleton.mpr rfl))
        · dsimp only at hj
          rw [getD_snoc_gt _ _ _ hgt] at hj
          exact absurd rfl hj
      · intro j
        show 0 ≤ (s.markers ++ [frameSize n]).getD j 0
        rcases Nat.lt_trichotomy j s.markers.length with hlt | heq | hgt
        · rw [getD_snoc_lt _ _ _ hlt]
          exact hn j
        · subst heq
          rw [getD_snoc_self]
          exact le_of_lt (frameSize_pos n)
        · rw [getD_snoc_gt _ _ _ hgt]
    · refine ⟨⟨?_, ?_⟩, ?_, ?_⟩
      · show s.queuedBytes + frameSize n - frameSize n =
          ((s.markers ++ [frameSize n]).set s.markers.length 0).sum
        rw [sum_set_zero, getD_snoc_self, sum_snoc, hc.1]
      · show s.queuedFrames + 1 - 1 =
          markerCountI ((s.markers ++ [frameSize n]).set s.markers.length 0)
        rw [countI_set_zero, getD_snoc_self, countI_snoc, hc.2,
          if_pos (show frameSize n ≠ 0 from by have := frameSize_pos n; omega)]
      · intro j hj
        show j ∈ s.dataQ ∨ j ∈ s.ctrlQ ∨ j ∈ s.batch
        dsimp only at hj
        by_cases hje : j = s.markers.length
        · subst hje
          rw [getD_set_self] at hj
          exact absurd rfl hj
        · rw [getD_set_ne _ _ _ _ hje] at hj
          rcases Nat.lt_trichotomy j s.markers.length with hlt | heq | hgt
          · rw [getD_snoc_lt _ _ _ hlt] at hj
            exact ho j hj
          · exact absurd heq hje
          · rw [getD_snoc_gt _ _ _ hgt] at hj
            exact absurd rfl hj
      · intro j
        show 0 ≤ ((s.markers ++ [frameSize n]).set s.markers.length 0).getD j 0
        by_cases hje : j = s.markers.length
        · subst hje
          rw [getD_set_self]
        · rw [getD_set_ne _ _ _ _ hje]
          rcases Nat.lt_trichotomy j s.markers.length with hlt | heq | hgt
          · rw [getD_snoc_lt _ _ _ hlt]
            exact hn j
          · exact absurd heq hje
          · rw [getD_snoc_gt _ _ _ hgt]

theorem writeControlOp_inv (p : WParams) (s : WState) (n : Nat)
    (h : WInv s) : WInv (writeControlOp p s n).1 := by
  obtain ⟨hc, ho, hn⟩ := h
  unfold writeControlOp
  dsimp only
  split
  · exact ⟨hc, ho, hn⟩
  · split
    · refine ⟨⟨?_, ?_⟩, ?_, ?_⟩
      · show s.queuedBytes + frameSize n = (s.markers ++ [frameSize n]).sum
        rw [sum_snoc, hc.1]
      · show s.queuedFrames + 1 = markerCountI (s.markers ++ [frameSize n])
        rw [countI_snoc, hc.2, if_pos (by have := frameSize_pos n; omega)]
      · intro j hj
        show j ∈ s.dataQ ∨ j ∈ s.ctrlQ ++ [s.markers.length] ∨ j ∈ s.batch
        rcases Nat.lt_trichotomy j s.markers.length with hlt | heq | hgt
        · dsimp only at hj
          rw [getD_snoc_lt _ _ _ hlt] at hj
          rcases ho j hj with hd | hcq | hbq
          · exact Or.inl hd
          · exact Or.inr (Or.inl (List.mem_append_left _ hcq))
          · exact Or.inr (Or.inr hbq)
        · subst heq
          exact Or.inr (Or.inl (List.mem_append_right _ (List.mem_singleton.mpr rfl)))
        · dsimp only at hj
          rw [getD_snoc_gt _ _ _ hgt] at hj
          exact absurd rfl hj
      · intro j
        show 0 ≤ (s.markers ++ [frameSize n]).getD j 0
        rcases Nat.lt_trichotomy j s.markers.length with hlt | heq | hgt
        · rw [getD_snoc_lt _ _ _ hlt]
          exact hn j
        · subst heq
          rw [getD_snoc_self]
          exact le_of_lt (frameSize_pos n)
        · rw [getD_snoc_gt _ _ _ hgt]
    · refine ⟨⟨?_, ?_⟩, ?_, ?_⟩
      · show s.queuedBytes + frameSize n - frameSize n =
          ((s.markers ++ [frameSize n]).set s.markers.length 0).sum
        rw [sum_set_zero, getD_snoc_self, sum_snoc, hc.1]
      · show s.queuedFrames + 1 - 1 =
          markerCountI ((s.markers ++ [frameSize n]).set s.markers.length 0)
        rw [countI_set_zero, getD_snoc_self, countI_snoc, hc.2,
          if_pos (show frameSize n ≠ 0 from by have := frameSize_pos n; omega)]
      · intro j hj
        show j ∈ s.dataQ ∨ j ∈ s.ctrlQ ∨ j ∈ s.batch
        dsimp only at hj
        by_cases hje : j = s.markers.length
        · subst hje
          rw [getD_set_self] at hj
          exact absurd rfl hj
        · rw [getD_set_ne _ _ _ _ hje] at hj
          rcases Nat.lt_trichotomy j s.markers.length with hlt | heq | hgt
          · rw [getD_snoc_lt _ _ _ hlt] at hj
            exact ho j hj
          · exact absurd heq hje
          · rw [getD_snoc_gt _ _ _ hgt] at hj
            exact absurd rfl hj
      · intro j
        show 0 ≤ ((s.markers ++ [frameSize n]).set s.markers.length 0).getD j 0
        by_cases hje : j = s.markers.length
        · subst hje
          rw [getD_set_self]
        · rw [getD_set_ne _ _ _ _ hje]
          rcases Nat.lt_trichotomy j s.markers.length with hlt | heq | hgt
          · rw [getD_snoc_lt _ _ _ hlt]
            exact hn j
          · exact absurd heq hje
          · rw [getD_snoc_gt _ _ _ hgt]

theorem loopStep_inv (p : WParams) (s : WState) (h : WInv s) : WInv (loopStep p s) := by
  obtain ⟨hc, ho, hn⟩ := h
  unfold loopStep
  cases hcq : s.ctrlQ with
  | cons fid rest =>
    refine ⟨flushFrame_counters p _ fid hc hn, ?_, flushFrame_nonneg p _ fid hn⟩
    intro j hj
    have hff := flushFrame_fields p { s with ctrlQ := rest } fid
    rw [hff.1] at hj
    rw [hff.2.1, hff.2.2.1, hff.2.2.2]
    by_cases hje : j = fid
    · subst hje
      rw [getD_set_self] at hj
      exact absurd rfl hj
    · rw [getD_set_ne _ _ _ _ hje] at hj
      rcases ho j hj with hd | hq | hb
      · exact Or.inl hd
      · rw [hcq] at hq
        rcases List.mem_cons.mp hq with hje2 | hjr
        · exact absurd hje2 hje
        · exact Or.inr (Or.inl hjr)
      · exact Or.inr (Or.inr hb)
  | nil =>
    cases hdq : s.dataQ with
    | cons fid rest =>
      have hw2 : WInv { s with dataQ := rest, ctrlQ := [], batch := s.batch ++ [fid] } := by
        refine ⟨hc, ?_, hn⟩
        intro j hj
        rcases ho j hj with hd | hq | hb
        · rw [hdq] at hd
          rcases List.mem_cons.mp hd with hje | hjr
          · subst hje
            exact Or.inr (Or.inr (List.mem_append_right _ (List.mem_singleton.mpr rfl)))
          · exact Or.inl hjr
        · rw [hcq] at hq
          exact absurd hq (List.not_mem_nil j)
        · exact Or.inr (Or.inr (List.mem_append_left _ hb))
      dsimp only
      split
      · exact ⟨(flushBatch_counters p _ hw2.1 hw2.2.2 hw2.2.1).1,
          flushBatch_owned p _ hw2.2.1, (flushBatch_counters p _ hw2.1 hw2.2.2 hw2.2.1).2⟩
      · exact hw2
    | nil =>
      dsimp only
      split
      · exact ⟨(flushBatch_counters p s hc hn ho).1, flushBatch_owned p s ho,
          (flushBatch_counters p s hc hn ho).2⟩
      · exact ⟨hc, ho, hn⟩

theorem closeOp_inv (s : WState) (h : WInv s) : WInv (closeOp s) := by
  obtain ⟨hc, ho, hn⟩ := h
  unfold closeOp
  dsimp only
  split
  · exact ⟨hc, ho, hn⟩
  · set s1 : WState := { s with closed := true, dataQ := [], ctrlQ := [] } with hs1
    have hfold := foldl_unmark_inv (s.dataQ ++ s.ctrlQ) s1 hc hn
    refine ⟨hfold.1, ?_, hfold.2⟩
    intro j hj
    have hflds := foldl_unmark_fields (s.dataQ ++ s.ctrlQ) s1
    rcases foldl_unmark_getD (s.dataQ ++ s.ctrlQ) s1 j with h0 | ⟨heq, hout⟩
    · exact absurd h0 hj
    · rw [heq] at hj
      rcases ho j hj with hd | hq | hb
      · exact absurd (List.mem_append_left _ hd) hout
      · exact absurd (List.mem_append_right _ hq) hout
      · refine Or.inr (Or.inr ?_)
        show j ∈ ((s.dataQ ++ s.ctrlQ).foldl unmarkQueued s1).batch
        rw [hflds.2.2.1]
        exact hb

theorem applyOp_inv (p : WParams) (s : WState) (op : WOp) (h : WInv s) :
    WInv (applyOp p s op) := by
  cases op with
  | writeFrame n c => exact writeFrameOp_inv p s n c h
  | writeControl n => exact writeControlOp_inv p s n h
  | loop => exact loopStep_inv p s h
  | close => exact closeOp_inv s h

theorem runOps_inv : ∀ (ops : List WOp) (p : WParams) (s : WState), WInv s →
    WInv (runOps p ops s) := by
  intro ops
  induction ops with
  | nil => intro p s h; exact h
  | cons op rest ih =>
    intro p s h
    rw [runOps]
    exact ih p _ (applyOp_inv p s op h)

theorem initW_inv : WInv initW :=
  ⟨⟨rfl, rfl⟩, fun _ hj => absurd rfl hj, fun _ => le_refl 0⟩

theorem loopStep_qlen (p : WParams) (s : WState) :
    (loopStep p s).dataQ.length + (loopStep p s).ctrlQ.length =
      s.dataQ.length + s.ctrlQ.length - 1 := by
  unfold loopStep
  cases hcq : s.ctrlQ with
  | cons fid rest =>
    have hf := flushFrame_fields p { s with ctrlQ := rest } fid
    rw [hf.2.1, hf.2.2.1]
    simp [hcq]
  | nil =>
    cases hdq : s.dataQ with
    | cons fid rest =>
      dsimp only
      split
      · have hf := flushBatch_fields p { s with dataQ := rest, ctrlQ := [], batch := s.batch ++ [fid] }
        rw [hf.1, hf.2.1]
        simp [hdq]
      · simp [hdq]
    | nil =>
      dsimp only
      split
      · have hf := flushBatch_fields p s
        rw [hf.1, hf.2.1, hcq, hdq]
        simp
      · simp [hcq, hdq]

theorem drain_empties (p : WParams) : ∀ (n : Nat) (s : WState),
    s.dataQ.length + s.ctrlQ.length ≤ n →
    (drainSteps p n s).dataQ = [] ∧ (drainSteps p n s).ctrlQ = [] := by
  intro n
  induction n with
  | zero =>
    intro s hle
    rw [drainSteps]
    exact ⟨List.length_eq_zero.mp (by omega), List.length_eq_zero.mp (by omega)⟩
  | succ n ih =>
    intro s hle
    rw [drainSteps]
    exact ih (loopStep p s) (by rw [loopStep_qlen]; omega)

theorem drainSteps_inv (p : WParams) : ∀ (n : Nat) (s : WState), WInv s →
    WInv (drainSteps p n s) := by
  intro n
  induction n with
  | zero => intro s h; exact h
  | succ n ih =>
    intro s h
    rw [drainSteps]
    exact ih _ (loopStep_inv p s h)

theorem counters_zero_of_empty (s : WState) (h : WInv s) (hd : s.dataQ = [])
    (hq : s.ctrlQ = []) (hb : s.batch = []) :
    s.queuedFrames = 0 ∧ s.queuedBytes = 0 := by
  have hall : ∀ j, s.markers.getD j 0 = 0 := by
    intro j
    by_contra hne
    rcases h.2.1 j hne with h1 | h1 | h1
    · rw [hd] at h1
      exact List.not_mem_nil j h1
    · rw [hq] at h1
      exact List.not_mem_nil j h1
    · rw [hb] at h1
      exact List.not_mem_nil j h1
  have hz := sum_countI_of_allZero s.markers hall
  exact ⟨by rw [h.1.2, hz.2], by rw [h.1.1, hz.1]⟩

theorem quiesce_zero (p : WParams) (s : WState) (h : WInv s) :
    (quiesce p s).queuedFrames = 0 ∧ (quiesce p s).queuedBytes = 0 := by
  unfold quiesce
  dsimp only
  have h1 := closeOp_inv s h
  have h2 := drainSteps_inv p ((closeOp s).dataQ.length + (closeOp s).ctrlQ.length)
    (closeOp s) h1
  refine counters_zero_of_empty _ ?_ ?_ ?_ ?_
  · exact ⟨(flushBatch_counters p _ h2.1 h2.2.2 h2.2.1).1, flushBatch_owned p _ h2.2.1,
      (flushBatch_counters p _ h2.1 h2.2.2 h2.2.1).2⟩
  · rw [(flushBatch_fields p _).1]
    exact (drain_empties p _ _ le_rfl).1
  · rw [(flushBatch_fields p _).2.1]
    exact (drain_empties p _ _ le_rfl).2
  · exact (flushBatch_fields p _).2.2

end FW

namespace FW

/-- C2 counterexample: with an underlying writer that fails the first conn
write, after two enqueues and one write-loop iteration the error is latched
and the writer marked closed with one frame emitted, yet the next loop
iteration still hands the second, already-queued frame to the underlying
byte writer - a frame is emitted after the first terminal write error. -/
theorem c2_emit_after_error_counterexample :
    let p : WParams := ⟨4096, 256, 256, true, 16, [true]⟩
    let s := runOps p [.writeFrame 1 false, .writeFrame 1 false, .loop] initW
    s.writeErr = some "write error" ∧ s.closed = true ∧ s.emitted = [0] ∧
      (loopStep p s).emitted = [0, 1] := by
  exact ⟨rfl, rfl, rfl, rfl⟩

/-- C2 amended: after the frame writer observes its first terminal write
error, the error is latched exactly once under errOnce (a later failing
write neither changes the latched error nor re-runs the latch body), and
every subsequent WriteFrame or WriteControl call returns the latched error
with the state unchanged, enqueueing nothing; frames already enqueued or
batched before the error are however still handed to the underlying byte
writer when the write loop drains them. -/
theorem c2_error_latch_amended :
    (∀ (p : WParams) (s : WState) (n : Nat) (c : Bool), s.closed = true →
      (writeFrameOp p s n c).1 = s ∧
      (writeFrameOp p s n c).2 =
        .error (match s.writeErr with | some e => e | none => "writer closed")) ∧
    (∀ (p : WParams) (s : WState) (n : Nat), s.closed = true →
      (writeControlOp p s n).1 = s ∧
      (writeControlOp p s n).2 =
        .error (match s.writeErr with | some e => e | none => "writer closed")) ∧
    (∀ (p : WParams) (s : WState) (fid : Nat) (e : String), s.writeErr = some e →
      (flushFrame p s fid).writeErr = some e ∧
      (flushFrame p s fid).closed = s.closed) := by
  refine ⟨?_, ?_, ?_⟩
  · intro p s n c h
    unfold writeFrameOp
    rw [if_pos h]
    exact ⟨rfl, rfl⟩
  · intro p s n h
    unfold writeControlOp
    rw [if_pos h]
    exact ⟨rfl, rfl⟩
  · intro p s fid e h
    unfold flushFrame
    dsimp only
    split
    · simp only [h]
      refine ⟨?_, ?_⟩
      · rw [(unmark_fields _ _).2.2.2.2.2.2.1]
      · rw [(unmark_fields _ _).2.2.2.2.1]
    · refine ⟨?_, ?_⟩
      · rw [(unmark_fields _ _).2.2.2.2.2.2.1]
        exact h
      · rw [(unmark_fields _ _).2.2.2.2.1]

theorem c2_error_latch_witness :
    (writeFrameOp ⟨4096, 256, 256, true, 16, []⟩
        { initW with closed := true, writeErr := some "write error" } 1 false).1 =
      { initW with closed := true, writeErr := some "write error" } ∧
    (writeFrameOp ⟨4096, 256, 256, true, 16, []⟩
        { initW with closed := true, writeErr := some "write error" } 1 false).2 =
      .error "write error" :=
  c2_error_latch_amended.1 ⟨4096, 256, 256, true, 16, []⟩
    { initW with closed := true, writeErr := some "write error" } 1 false rfl

/-- C3: the per-frame one-shot counter makes a second unmark of the same
frame a no-op (each frame is decremented exactly once); after any sequence
of WriteFrame, WriteControl, write-loop and Close operations the backlog
counters equal the sum and count of the outstanding one-shot counters (so
every completed enqueue-then-write-or-discard returns them to their
pre-enqueue values), and once Close has run and the write loop has drained
to quiescence both QueuedFrames and QueuedBytes are zero. -/
theorem c3_backlog_counters :
    (∀ (s : WState) (fid : Nat),
      unmarkQueued (unmarkQueued s fid) fid = unmarkQueued s fid) ∧
    (∀ (p : WParams) (ops : List WOp),
      countersInv (runOps p ops initW) ∧
      (quiesce p (runOps p ops initW)).queuedFrames = 0 ∧
      (quiesce p (runOps p ops initW)).queuedBytes = 0) := by
  constructor
  · intro s fid
    have h0 : (unmarkQueued s fid).markers.getD fid 0 = 0 := by
      rw [(unmark_fields s fid).1]
      exact getD_set_self _ _
    rw [unmarkQueued]
    dsimp only
    rw [if_pos (le_of_eq h0)]
    have hm : (unmarkQueued s fid).markers.set fid 0 = (unmarkQueued s fid).markers := by
      rw [(unmark_fields s fid).1, List.set_set]
    rw [hm]
  · intro p ops
    have hw := runOps_inv ops p initW initW_inv
    exact ⟨hw.1, quiesce_zero p _ hw⟩

end FW

end Drip
